import Mathlib

/-!
Verification of the greenbay job-execution engine specification.

The greenbay repository builds on the amboy job/queue/runner contracts.
The repository sources provide `interface.go` (the `Checker` and
`TimingInfo` types), `output/registry.go` (the results-factory
registry), the amboy `interface.go` contracts, and the amboy pool test
suite.  The concrete queue (`queue.NewLocalUnordered`) and runner
(`pool.SingleRunner`) implementations are not part of the source tree,
so the scheduling engine is modelled from the specification text and
checked against it; the registry and timing code are embedded directly
from the source.
-/

namespace Greenbay

/-! ## Timing (from src/interface.go) -/

/-- Model of Go `time.Time` as an instant in nanoseconds. -/
structure Time where
  ns : Int
deriving DecidableEq, Repr

/-- Model of Go `time.Duration` (nanoseconds). -/
abbrev Duration := Int

/-- Go `time.Time.Sub`: `a.Sub(b)` is the duration `a - b`. -/
def Time.sub (a b : Time) : Duration := a.ns - b.ns

/-- `TimingInfo` tracks the start and end time for a task
(src/interface.go). -/
structure TimingInfo where
  Start : Time
  End : Time
deriving DecidableEq, Repr

/-- Embedding of `TimingInfo.Duration` from src/interface.go:
`return t.Start.Sub(t.End)`. -/
def TimingInfo.Duration (t : TimingInfo) : Duration := Time.sub t.Start t.End

/-! ## Results-factory registry (from src/output/registry.go) -/

/-- Abstract stand-in for a Go `ResultsFactory` closure; only identity
matters for the registry's bookkeeping. -/
abbrev ResultsFactory := Nat

/-- The registry state: Go's `map[string]ResultsFactory`, embedded as an
association list with unique keys maintained by `mapSet`. -/
structure ResultsFactoryRegistry where
  factories : List (String × ResultsFactory)
deriving DecidableEq, Repr

/-- Go map assignment `m[k] = v`: replace the existing binding if the key
is present, otherwise append a new binding. -/
def mapSet (l : List (String × ResultsFactory)) (k : String) (v : ResultsFactory) :
    List (String × ResultsFactory) :=
  if l.any (fun p => p.1 == k) then
    l.map (fun p => if p.1 == k then (k, v) else p)
  else
    l ++ [(k, v)]

/-- Embedding of `resultsFactoryRegistry.add` from src/output/registry.go.
The second component reports whether `grip.AlertWhenf` fired: the source
computes `_, ok := r.factories[name]` and alerts ("overwriting existing
factory") exactly when `ok` holds, then assigns `r.factories[name] =
factory` unconditionally. -/
def ResultsFactoryRegistry.add (r : ResultsFactoryRegistry) (name : String)
    (factory : ResultsFactory) : ResultsFactoryRegistry × Bool :=
  let ok := r.factories.any (fun p => p.1 == name)
  (⟨mapSet r.factories name factory⟩, ok)

/-- Embedding of `resultsFactoryRegistry.get` from src/output/registry.go;
the Bool reports whether the lookup alerted ("factory does not exist"),
which the source does exactly when the name is absent. -/
def ResultsFactoryRegistry.get (r : ResultsFactoryRegistry) (name : String) :
    Option ResultsFactory × Bool :=
  match r.factories.find? (fun p => p.1 == name) with
  | some p => (some p.2, false)
  | none => (none, true)

/-- Embedding of `AddFactory` from src/output/registry.go: delegates to
`add` on the process-wide registry value. -/
def AddFactory (r : ResultsFactoryRegistry) (name : String)
    (factory : ResultsFactory) : ResultsFactoryRegistry × Bool :=
  r.add name factory

/-- The registry contents established by `init()` in
src/output/registry.go: factories named "gotest", "result" and "log". -/
def initialRegistry : ResultsFactoryRegistry :=
  (((AddFactory ⟨[]⟩ "gotest" 0).1.add "result" 1).1.add "log" 2).1

/-! ## Job and dependency model

Modelled from the spec: the amboy `dependency.Manager` implementation is
not under src/, only the `amboy.Job` interface that references it.  The
spec gives the discrete dependency states Ready, Blocked, Passed and
Unresolved. -/

/-- Modelled from the spec: the Dependency Manager's discrete state
(Ready / Blocked / Passed / Unresolved); the concrete
`amboy/dependency` package is not under src/. -/
inductive DepState where
  | ready
  | blocked
  | passed
  | unresolved
deriving DecidableEq, Repr

/-- Modelled from the spec: a Job value with identity, dependency state,
completion flag and terminal error; the concrete job implementations
(amboy/job, greenbay/check) are not under src/.  `faults` records
whether executing the job's work raises an internal fault, and
`executed` records whether the execution side effect has fired. -/
structure Job where
  id : String
  depState : DepState
  faults : Bool
  completed : Bool
  executed : Bool
  err : Option String
deriving DecidableEq, Repr

/-- A job is eligible for dispatch handling when its dependency state is
Ready (normal execution) or Passed (completed directly, skipped). -/
def dispatchable (j : Job) : Bool :=
  j.depState == DepState.ready || j.depState == DepState.passed

/-- Modelled from the spec: executing a dispatched job at the worker
boundary.  A Passed job is never executed and is marked completed
directly; a Ready job runs, toggles its completed flag, and any internal
fault is captured as the job's terminal error instead of propagating. -/
def runJob (j : Job) : Job :=
  if j.depState == DepState.passed then
    { j with completed := true }
  else
    { j with executed := true, completed := true,
             err := if j.faults then some "internal fault during execution" else none }

/-! ## Queue model

Modelled from the spec: the `queue.NewLocalUnordered` implementation is
not under src/, only the `amboy.Queue` interface and its callers. -/

/-- Statistics snapshot {Total, Pending, Running, Completed} as described
by `Queue.Stats` in the spec. -/
structure QueueStats where
  total : Nat
  pending : Nat
  running : Nat
  completed : Nat
deriving DecidableEq, Repr

/-- Modelled from the spec: the unordered local queue state.  `pending`
and `completedJobs` are the two logical partitions; `results` is the
monotonically-growing results stream; `dispatched` lists the ids of jobs
handed to a worker but not yet completed (still members of the pending
partition); `total` is the submission counter; `runner` is the bound
runner handle. -/
structure Queue where
  pending : List Job
  completedJobs : List Job
  results : List Job
  dispatched : List String
  total : Nat
  started : Bool
  runner : Option Nat
deriving DecidableEq, Repr

/-- The empty, unstarted queue. -/
def Queue.empty : Queue := ⟨[], [], [], [], 0, false, none⟩

/-- Whether a job with the given id exists in either partition. -/
def Queue.hasId (q : Queue) (i : String) : Bool :=
  (q.pending ++ q.completedJobs).any (fun p => p.id == i)

/-- Modelled from the spec: `Submit`/`Put` rejects a duplicate id found
in the pending or completed set and otherwise inserts into pending,
incrementing the total counter.  The Bool reports success; on failure
the queue value is returned unchanged (no partial mutation). -/
def Queue.submit (q : Queue) (j : Job) : Queue × Bool :=
  if q.hasId j.id then (q, false)
  else ({ q with pending := q.pending ++ [j], total := q.total + 1 }, true)

/-- Modelled from the spec: the error-returning `Put` surface of
`amboy.Queue`, in terms of `submit`. -/
def Queue.put (q : Queue) (j : Job) : Except String Queue :=
  match q.submit j with
  | (q2, true) => Except.ok q2
  | (_, false) => Except.error "cannot add a duplicate job"

/-- Modelled from the spec: `Get`/`Lookup` searches both partitions
read-only. -/
def Queue.get (q : Queue) (i : String) : Option Job :=
  (q.pending ++ q.completedJobs).find? (fun j => j.id == i)

/-- Modelled from the spec: `Next` returns nil immediately if the
cancellation signal is triggered; otherwise it scans the pending subset
for a dispatchable job not already handed to a worker, recording the
dispatch. -/
def Queue.next (q : Queue) (cancelled : Bool) : Option (Job × Queue) :=
  if cancelled then none
  else
    match q.pending.find? (fun j => dispatchable j && !(q.dispatched.contains j.id)) with
    | none => none
    | some j => some (j, { q with dispatched := q.dispatched ++ [j.id] })

/-- Modelled from the spec: `Complete` transitions a job from the pending
partition to the completed partition and publishes it on the results
stream exactly once; a job not in pending is left alone. -/
def Queue.complete (q : Queue) (j : Job) : Queue :=
  if q.pending.any (fun p => p.id == j.id) then
    { q with
      pending := q.pending.eraseP (fun p => p.id == j.id),
      completedJobs := q.completedJobs ++ [j],
      results := q.results ++ [j],
      dispatched := q.dispatched.filter (fun i => !(i == j.id)) }
  else q

/-- Modelled from the spec: `Stats` snapshot.  Pending counts
undispatched members of the pending partition, Running counts dispatched
but not yet completed members, Completed the completed partition, Total
the submission counter. -/
def Queue.stats (q : Queue) : QueueStats :=
  { total := q.total,
    pending := (q.pending.filter (fun j => !(q.dispatched.contains j.id))).length,
    running := (q.pending.filter (fun j => q.dispatched.contains j.id)).length,
    completed := q.completedJobs.length }

/-- Modelled from the spec: one worker cycle — ask the queue for the
next dispatchable job, execute it at the worker boundary, and report
completion back to the queue. -/
def Queue.step (q : Queue) (cancelled : Bool) : Option Queue :=
  match q.next cancelled with
  | none => none
  | some (j, q1) => some (q1.complete (runJob j))

/-- Modelled from the spec: the worker loop, fuelled by the number of
pending jobs; stops when `next` yields nothing. -/
def runFuel : Nat → Bool → Queue → Queue
  | 0, _, q => q
  | Nat.succ n, c, q =>
    match q.step c with
    | none => q
    | some q2 => runFuel n c q2

/-- Modelled from the spec: `Wait` drives the worker loop until no
dispatchable job remains (in the sequential model, one fuel unit per
pending job suffices). -/
def Queue.wait (q : Queue) : Queue := runFuel q.pending.length false q

/-- Modelled from the spec: `Begin`/`Start` marks the queue started;
idempotent. -/
def Queue.begin (q : Queue) : Queue := { q with started := true }

/-- Modelled from the spec: the error-returning `Start` surface;
a second call after a successful first call is a no-op, not an error. -/
def Queue.start (q : Queue) : Except String Queue := Except.ok q.begin

/-- Modelled from the spec: `SetRunner` fails with a lifecycle error once
the queue has started, leaving the association unchanged. -/
def Queue.setRunner (q : Queue) (r : Nat) : Queue × Except String Unit :=
  if q.started then (q, Except.error "cannot change runners after queue has started")
  else ({ q with runner := some r }, Except.ok ())

/-- Submit a whole list of jobs in order, counting successes. -/
def submitCount : Queue → List Job → Queue × Nat
  | q, [] => (q, 0)
  | q, j :: js =>
    match q.submit j with
    | (q1, true) =>
      let r := submitCount q1 js
      (r.1, r.2 + 1)
    | (q1, false) => submitCount q1 js

/-- Submit a whole list of jobs in order, keeping the final queue. -/
def Queue.submitAll (q : Queue) (js : List Job) : Queue := (submitCount q js).1

/-! ## Runner model

Modelled from the spec: the `pool.SingleRunner` implementation is not
under src/, only its test suite. -/

/-- Modelled from the spec: a single-worker runner holding its lifecycle
flag and the handle of its associated queue. -/
structure SingleRunner where
  started : Bool
  queue : Nat
deriving DecidableEq, Repr

/-- Modelled from the spec: `SetQueue` is permitted only before the first
Start; afterwards it fails with a lifecycle error and the association is
unchanged. -/
def SingleRunner.setQueue (r : SingleRunner) (qh : Nat) :
    SingleRunner × Except String Unit :=
  if r.started then (r, Except.error "cannot change queues after runner is started")
  else ({ r with queue := qh }, Except.ok ())

/-- Modelled from the spec: `Start` spawns the worker; a second call
after a successful first call is a no-op, not an error. -/
def SingleRunner.start (r : SingleRunner) : Except String SingleRunner :=
  Except.ok { r with started := true }

/-! ## Invariants and sample values -/

/-- The submission counter agrees with the sizes of the two partitions. -/
abbrev countInv (q : Queue) : Prop :=
  q.total = q.pending.length + q.completedJobs.length

/-- Job ids are unique across the pending and completed partitions. -/
abbrev idsInv (q : Queue) : Prop :=
  ((q.pending ++ q.completedJobs).map Job.id).Nodup

/-- Sample job: ready, no faults. -/
def jA : Job := ⟨"a", DepState.ready, false, false, false, none⟩

/-- Sample job: dependency already Passed. -/
def jB : Job := ⟨"b", DepState.passed, false, false, false, none⟩

/-- Sample job: ready, whose execution raises an internal fault. -/
def jF : Job := ⟨"f", DepState.ready, true, false, false, none⟩

/-! ## Basic lemmas about job execution -/

theorem runJob_id (j : Job) : (runJob j).id = j.id := by
  unfold runJob; split <;> rfl

theorem runJob_completed (j : Job) : (runJob j).completed = true := by
  unfold runJob; split <;> rfl

theorem runJob_passed (j : Job) (h : j.depState = DepState.passed) :
    runJob j = { j with completed := true } := by
  simp [runJob, h]

theorem runJob_ready_err (j : Job) (h : j.depState = DepState.ready) :
    (runJob j).err =
      (if j.faults then some "internal fault during execution" else none) := by
  simp [runJob, h]

/-! ## C10: TimingInfo.Duration -/

/-- C10: for every TimingInfo value `t`, `t.Duration()` returns
`t.Start.Sub(t.End)`, i.e. Start minus End; in particular when End is
strictly later than Start the result is negative rather than the elapsed
time End minus Start. -/
theorem timingInfo_duration_start_minus_end (t : TimingInfo) :
    t.Duration = t.Start.ns - t.End.ns ∧
    (t.Start.ns < t.End.ns → t.Duration < 0) := by
  refine ⟨rfl, fun h => ?_⟩
  show t.Start.ns - t.End.ns < 0
  omega

/-- Witness for C10 at Start = 0ns, End = 5ns: the duration is negative. -/
theorem timingInfo_duration_start_minus_end_witness :
    (⟨⟨0⟩, ⟨5⟩⟩ : TimingInfo).Start.ns < (⟨⟨0⟩, ⟨5⟩⟩ : TimingInfo).End.ns ∧
    (⟨⟨0⟩, ⟨5⟩⟩ : TimingInfo).Duration < 0 :=
  ⟨by decide, (timingInfo_duration_start_minus_end ⟨⟨0⟩, ⟨5⟩⟩).2 (by decide)⟩

/-! ## C9: duplicate factory registration alerts -/

/-- C9: every `AddFactory` call whose name is already registered fires
the overwrite alert (`grip.AlertWhenf` with a true condition), so the
duplicate registration is loud, not silent. -/
theorem addFactory_duplicate_alerts (r : ResultsFactoryRegistry) (name : String)
    (f : ResultsFactory) (h : r.factories.any (fun p => p.1 == name) = true) :
    (AddFactory r name f).2 = true := by
  simp [AddFactory, ResultsFactoryRegistry.add, h]

/-- Witness for C9: re-registering "gotest" over the init()-time registry
fires the alert. -/
theorem addFactory_duplicate_alerts_witness :
    initialRegistry.factories.any (fun p => p.1 == "gotest") = true ∧
    (AddFactory initialRegistry "gotest" 7).2 = true :=
  ⟨by decide, addFactory_duplicate_alerts initialRegistry "gotest" 7 (by decide)⟩

/-! ## C7: Start is idempotent -/

/-- C7: Start is idempotent for both the Runner and the Queue: the first
call succeeds and sets the started flag; once started, every further
call returns no error and performs no state change, and `Started()`
remains true. -/
theorem start_idempotent (r : SingleRunner) (q : Queue) :
    (r.start = Except.ok { r with started := true }) ∧
    (r.started = true → r.start = Except.ok r) ∧
    (∀ r2, r.start = Except.ok r2 → r2.started = true) ∧
    (q.start = Except.ok q.begin) ∧
    (q.started = true → q.start = Except.ok q) ∧
    (∀ q2, q.start = Except.ok q2 → q2.started = true) := by
  obtain ⟨rs, rq⟩ := r
  obtain ⟨pen, comp, res, disp, tot, st, run⟩ := q
  refine ⟨rfl, fun h => ?_, fun r2 h2 => ?_, rfl, fun h => ?_, fun q2 h2 => ?_⟩
  · simp only at h
    subst h
    rfl
  · simp only [SingleRunner.start, Except.ok.injEq] at h2
    subst h2
    rfl
  · simp only at h
    subst h
    rfl
  · simp only [Queue.start, Queue.begin, Except.ok.injEq] at h2
    subst h2
    rfl

/-- Witness for C7: a started runner and a started queue accept a second
Start call as a no-op. -/
theorem start_idempotent_witness :
    SingleRunner.start ⟨true, 0⟩ = Except.ok ⟨true, 0⟩ ∧
    Queue.start Queue.empty.begin = Except.ok Queue.empty.begin :=
  ⟨(start_idempotent ⟨true, 0⟩ Queue.empty).2.1 rfl,
   (start_idempotent ⟨true, 0⟩ Queue.empty.begin).2.2.2.2.1 rfl⟩

/-! ## C6: rebinding after start fails -/

/-- C6: `SetQueue` on a Runner and `SetRunner` on a Queue fail with the
documented lifecycle error after start, leaving the association
unchanged; before start they succeed and the new association is
observable (and differs from the old one when the handles differ). -/
theorem rebinding_after_start_fails (r : SingleRunner) (qh : Nat)
    (q : Queue) (rh : Nat) :
    (r.started = true →
      r.setQueue qh = (r, Except.error "cannot change queues after runner is started")) ∧
    (r.started = false →
      (r.setQueue qh).1.queue = qh ∧ (r.setQueue qh).2 = Except.ok () ∧
      (qh ≠ r.queue → (r.setQueue qh).1.queue ≠ r.queue)) ∧
    (q.started = true →
      q.setRunner rh = (q, Except.error "cannot change runners after queue has started")) ∧
    (q.started = false →
      (q.setRunner rh).1.runner = some rh ∧ (q.setRunner rh).2 = Except.ok ()) := by
  refine ⟨fun h => ?_, fun h => ?_, fun h => ?_, fun h => ?_⟩
  · simp [SingleRunner.setQueue, h]
  · simp [SingleRunner.setQueue, h]
  · simp [Queue.setRunner, h]
  · simp [Queue.setRunner, h]

/-- Witness for C6: a started runner rejects SetQueue and keeps its
queue; an unstarted runner accepts it and the new queue is observable. -/
theorem rebinding_after_start_fails_witness :
    SingleRunner.setQueue ⟨true, 0⟩ 1 =
      (⟨true, 0⟩, Except.error "cannot change queues after runner is started") ∧
    (SingleRunner.setQueue ⟨false, 0⟩ 1).1.queue = 1 :=
  ⟨(rebinding_after_start_fails ⟨true, 0⟩ 1 Queue.empty 0).1 rfl,
   ((rebinding_after_start_fails ⟨false, 0⟩ 1 Queue.empty 0).2.1 rfl).1⟩

/-! ## C8: cancellation stops dispatch, in-flight jobs still complete -/

/-- C8: once the cancellation signal is triggered, `Next` returns nil
immediately and the worker loop dispatches no further job (the queue is
left untouched for any amount of fuel), while `Complete` for a job still
in the pending partition (an in-flight job) is unaffected by
cancellation: the job still transitions to completed and is still
published on the results stream. -/
theorem cancellation_prevents_dispatch (q : Queue) (n : Nat) (j : Job) :
    q.next true = none ∧
    runFuel n true q = q ∧
    (q.pending.any (fun p => p.id == j.id) = true →
      (q.complete j).completedJobs = q.completedJobs ++ [j] ∧
      (q.complete j).results = q.results ++ [j]) := by
  refine ⟨rfl, ?_, fun h => ?_⟩
  · cases n with
    | zero => rfl
    | succ m => simp [runFuel, Queue.step, Queue.next]
  · simp [Queue.complete, h]

/-- Witness for C8: with job `jA` pending and the signal cancelled, the
loop dispatches nothing, yet completing the in-flight `jA` publishes
it. -/
theorem cancellation_prevents_dispatch_witness :
    runFuel 5 true (Queue.mk [jA] [] [] [] 1 true none) =
      Queue.mk [jA] [] [] [] 1 true none ∧
    ((Queue.mk [jA] [] [] [] 1 true none).complete jA).results = [] ++ [jA] :=
  ⟨(cancellation_prevents_dispatch (Queue.mk [jA] [] [] [] 1 true none) 5 jA).2.1,
   ((cancellation_prevents_dispatch (Queue.mk [jA] [] [] [] 1 true none) 5 jA).2.2
     (by decide)).2⟩

/-! ## C2: Total counts successful submissions; duplicates rejected -/

theorem submitCount_total (js : List Job) :
    ∀ q : Queue, (submitCount q js).1.total = q.total + (submitCount q js).2 := by
  induction js with
  | nil => intro q; simp [submitCount]
  | cons j js ih =>
    intro q
    by_cases h : q.hasId j.id = true
    · simp [submitCount, Queue.submit, h, ih q]
    · simp only [Bool.not_eq_true] at h
      simp [submitCount, Queue.submit, h, ih]
      omega

/-- C2: for every sequence of submissions, `Stats().Total` equals the
number of successful submissions; a submission whose id already exists
in the pending or completed set fails with the duplicate error and
leaves the queue (counters and both partitions) unchanged. -/
theorem put_duplicate_rejected_total_counts_successes
    (js : List Job) (q : Queue) (j : Job) :
    (Queue.empty.submitAll js).stats.total = (submitCount Queue.empty js).2 ∧
    (q.hasId j.id = true →
      q.submit j = (q, false) ∧
      q.put j = Except.error "cannot add a duplicate job") := by
  refine ⟨?_, fun h => ⟨?_, ?_⟩⟩
  · have := submitCount_total js Queue.empty
    simpa [Queue.submitAll, Queue.stats, Queue.empty] using this
  · simp [Queue.submit, h]
  · simp [Queue.put, Queue.submit, h]

/-- Witness for C2: submitting `[jA, jA]` yields one success and Total 1,
and the duplicate `jA` is rejected without mutation. -/
theorem put_duplicate_rejected_witness :
    (Queue.empty.submitAll [jA, jA]).stats.total =
      (submitCount Queue.empty [jA, jA]).2 ∧
    (Queue.empty.submit jA).1.submit jA = ((Queue.empty.submit jA).1, false) :=
  ⟨(put_duplicate_rejected_total_counts_successes [jA, jA] Queue.empty jA).1,
   ((put_duplicate_rejected_total_counts_successes [jA, jA]
       (Queue.empty.submit jA).1 jA).2 (by decide)).1⟩

/-! ## Characterizations of the queue operations -/

theorem submit_of_hasId {q : Queue} {j : Job} (h : q.hasId j.id = true) :
    q.submit j = (q, false) := by
  simp [Queue.submit, h]

theorem submit_of_fresh {q : Queue} {j : Job} (h : q.hasId j.id = false) :
    q.submit j =
      ({ q with pending := q.pending ++ [j], total := q.total + 1 }, true) := by
  simp [Queue.submit, h]

theorem complete_of_mem {q : Queue} {j : Job}
    (h : q.pending.any (fun p => p.id == j.id) = true) :
    q.complete j =
      { q with pending := q.pending.eraseP (fun p => p.id == j.id),
               completedJobs := q.completedJobs ++ [j],
               results := q.results ++ [j],
               dispatched := q.dispatched.filter (fun i => !(i == j.id)) } := by
  simp [Queue.complete, h]

theorem complete_of_not_mem {q : Queue} {j : Job}
    (h : q.pending.any (fun p => p.id == j.id) = false) :
    q.complete j = q := by
  simp [Queue.complete, h]

/-! ## C3: stats and partition invariants -/

theorem length_filter_partition {α : Type} (p : α → Bool) (l : List α) :
    (l.filter p).length + (l.filter (fun a => !(p a))).length = l.length := by
  induction l with
  | nil => rfl
  | cons a l ih => cases h : p a <;> simp [List.filter_cons, h] <;> omega

theorem any_id_eq_true_iff {l : List Job} {x : String} :
    l.any (fun p => p.id == x) = true ↔ x ∈ l.map Job.id := by
  simp [List.any_eq_true, List.mem_map, beq_iff_eq]

theorem hasId_false_not_mem {q : Queue} {i : String} (h : q.hasId i = false) :
    i ∉ q.pending.map Job.id ∧ i ∉ q.completedJobs.map Job.id := by
  rw [Queue.hasId, List.any_append] at h
  constructor
  · intro hm
    simp [any_id_eq_true_iff.mpr hm] at h
  · intro hm
    simp [any_id_eq_true_iff.mpr hm] at h

theorem not_mem_eraseP_beq {l : List String} {x : String} (h : l.Nodup) :
    x ∉ l.eraseP (fun i => i == x) := by
  induction l with
  | nil => simp
  | cons a l ih =>
    rcases List.nodup_cons.mp h with ⟨ha, hl⟩
    by_cases hax : (a == x) = true
    · have hax' : a = x := by simpa using hax
      subst hax'
      simpa [List.eraseP_cons, hax] using ha
    · have hax' : ¬(x = a) := fun hxa => hax (by simp [hxa])
      simp [List.eraseP_cons, hax, List.mem_cons, hax']
      exact ih hl

theorem eraseP_map_id (l : List Job) (x : String) :
    (l.eraseP (fun p => p.id == x)).map Job.id =
      (l.map Job.id).eraseP (fun i => i == x) := by
  induction l with
  | nil => rfl
  | cons a l ih =>
    by_cases h : (a.id == x) = true
    · simp [List.eraseP_cons, h]
    · simp [List.eraseP_cons, h, ih]

/-- C3: under the queue invariants (submission counter agrees with the
partition sizes; ids unique), every Stats snapshot satisfies
Total = Pending + Completed + Running, no id is in both partitions, a
successful submission lands the job in a partition, and Submit, Next and
Complete each preserve both invariants. -/
theorem stats_partition_invariant (q : Queue) (j : Job) (c : Bool)
    (hc : countInv q) (hi : idsInv q) :
    (q.stats.total = q.stats.pending + q.stats.completed + q.stats.running) ∧
    (∀ i, ¬(i ∈ q.pending.map Job.id ∧ i ∈ q.completedJobs.map Job.id)) ∧
    (countInv (q.submit j).1 ∧ idsInv (q.submit j).1) ∧
    ((q.submit j).2 = true → (q.submit j).1.hasId j.id = true) ∧
    (∀ p, q.next c = some p → countInv p.2 ∧ idsInv p.2) ∧
    (countInv (q.complete j) ∧ idsInv (q.complete j)) := by
  have hc' : q.total = q.pending.length + q.completedJobs.length := hc
  have hi' : ((q.pending ++ q.completedJobs).map Job.id).Nodup := hi
  rw [List.map_append] at hi'
  rcases List.nodup_append.mp hi' with ⟨hP, hC, hPC⟩
  refine ⟨?_, ?_, ?_, ?_, ?_, ?_⟩
  · have hpart := length_filter_partition (fun x => q.dispatched.contains x.id) q.pending
    show q.total =
      (q.pending.filter (fun x => !(q.dispatched.contains x.id))).length +
        q.completedJobs.length +
        (q.pending.filter (fun x => q.dispatched.contains x.id)).length
    omega
  · intro i ⟨hip, hic⟩
    exact hPC hip hic
  · by_cases h : q.hasId j.id = true
    · rw [submit_of_hasId h]
      exact ⟨hc, hi⟩
    · replace h : q.hasId j.id = false := by
        cases hx : q.hasId j.id
        · rfl
        · exact absurd hx h
      rcases hasId_false_not_mem h with ⟨hxP, hxC⟩
      rw [submit_of_fresh h]
      constructor
      · show q.total + 1 = (q.pending ++ [j]).length + q.completedJobs.length
        rw [List.length_append]
        simp only [List.length_cons, List.length_nil]
        omega
      · show (((q.pending ++ [j]) ++ q.completedJobs).map Job.id).Nodup
        rw [List.map_append, List.map_append]
        refine List.nodup_append.mpr ⟨?_, hC, ?_⟩
        · simp only [List.map_cons, List.map_nil]
          refine List.nodup_append.mpr ⟨hP, List.nodup_singleton _, ?_⟩
          intro a haP haX
          simp only [List.mem_singleton] at haX
          exact hxP (haX ▸ haP)
        · intro a haPX haC
          simp only [List.map_cons, List.map_nil, List.mem_append,
            List.mem_singleton] at haPX
          rcases haPX with hm | rfl
          · exact hPC hm haC
          · exact hxC haC
  · intro hs
    by_cases h : q.hasId j.id = true
    · rw [submit_of_hasId h] at hs
      cases hs
    · replace h : q.hasId j.id = false := by
        cases hx : q.hasId j.id
        · rfl
        · exact absurd hx h
      rw [submit_of_fresh h]
      show (((q.pending ++ [j]) ++ q.completedJobs).any (fun p => p.id == j.id)) = true
      rw [List.any_append, List.any_append]
      simp
  · intro p hp
    rw [Queue.next] at hp
    split at hp
    · exact absurd hp (by simp)
    · split at hp
      · exact absurd hp (by simp)
      · simp only [Option.some.injEq] at hp
        subst hp
        exact ⟨hc, hi⟩
  · by_cases h : q.pending.any (fun p => p.id == j.id) = true
    · have hxP : j.id ∈ q.pending.map Job.id := any_id_eq_true_iff.mp h
      rcases List.mem_map.mp hxP with ⟨a, ha, haid⟩
      have hxC : j.id ∉ q.completedJobs.map Job.id := fun hm => hPC hxP hm
      rw [complete_of_mem h]
      constructor
      · show q.total =
          (q.pending.eraseP (fun p => p.id == j.id)).length +
            (q.completedJobs ++ [j]).length
        have hlen := List.length_eraseP_add_one (p := fun p => p.id == j.id) ha
          (by simp [haid])
        rw [List.length_append]
        simp only [List.length_cons, List.length_nil]
        omega
      · show (((q.pending.eraseP (fun p => p.id == j.id)) ++
            (q.completedJobs ++ [j])).map Job.id).Nodup
        rw [List.map_append, eraseP_map_id, List.map_append]
        have hPe : ((q.pending.map Job.id).eraseP (fun i => i == j.id)).Nodup :=
          (List.eraseP_sublist _).nodup hP
        have hsub : ∀ b, b ∈ (q.pending.map Job.id).eraseP (fun i => i == j.id) →
            b ∈ q.pending.map Job.id := fun b hm => (List.eraseP_sublist _).mem hm
        have hxPe : j.id ∉ (q.pending.map Job.id).eraseP (fun i => i == j.id) :=
          not_mem_eraseP_beq hP
        refine List.nodup_append.mpr ⟨hPe, ?_, ?_⟩
        · simp only [List.map_cons, List.map_nil]
          refine List.nodup_append.mpr ⟨hC, List.nodup_singleton _, ?_⟩
          intro b hbC hbX
          simp only [List.mem_singleton] at hbX
          exact hxC (hbX ▸ hbC)
        · intro b hbPe hbCX
          simp only [List.map_cons, List.map_nil, List.mem_append,
            List.mem_singleton] at hbCX
          rcases hbCX with hm | rfl
          · exact hPC (hsub b hbPe) hm
          · exact hxPe hbPe
    · replace h : q.pending.any (fun p => p.id == j.id) = false := by
        cases hx : q.pending.any (fun p => p.id == j.id)
        · rfl
        · exact absurd hx h
      rw [complete_of_not_mem h]
      exact ⟨hc, hi⟩

/-- Witness for C3 at the one-job queue obtained by submitting `jA`. -/
theorem stats_partition_invariant_witness :
    ((Queue.empty.submit jA).1.stats.total =
      (Queue.empty.submit jA).1.stats.pending +
      (Queue.empty.submit jA).1.stats.completed +
      (Queue.empty.submit jA).1.stats.running) :=
  (stats_partition_invariant (Queue.empty.submit jA).1 jB false
    (by decide) (by decide)).1

/-! ## Draining the queue: the worker loop on dispatchable jobs -/

theorem step_cons (j : Job) (rest comp res : List Job) (tot : Nat) (st : Bool)
    (run : Option Nat) (hdj : dispatchable j = true) :
    Queue.step ⟨j :: rest, comp, res, [], tot, st, run⟩ false =
      some ⟨rest, comp ++ [runJob j], res ++ [runJob j], [], tot, st, run⟩ := by
  have hid : (runJob j).id = j.id := runJob_id j
  simp [Queue.step, Queue.next, List.find?_cons, hdj, Queue.complete, hid,
    List.eraseP_cons, List.filter]

theorem runFuel_drain : ∀ (n : Nat) (pen comp res : List Job) (tot : Nat)
    (st : Bool) (run : Option Nat),
    pen.length ≤ n →
    (∀ j ∈ pen, dispatchable j = true) →
    runFuel n false ⟨pen, comp, res, [], tot, st, run⟩ =
      ⟨[], comp ++ pen.map runJob, res ++ pen.map runJob, [], tot, st, run⟩ := by
  intro n
  induction n with
  | zero =>
    intro pen comp res tot st run hlen _
    have hnil : pen = [] := List.eq_nil_of_length_eq_zero (Nat.le_zero.mp hlen)
    subst hnil
    simp [runFuel]
  | succ n ih =>
    intro pen comp res tot st run hlen hall
    cases pen with
    | nil => simp [runFuel, Queue.step, Queue.next]
    | cons j rest =>
      have hdj : dispatchable j = true := hall j (List.mem_cons_self _ _)
      have hstep := step_cons j rest comp res tot st run hdj
      simp only [runFuel, hstep]
      rw [ih rest (comp ++ [runJob j]) (res ++ [runJob j]) tot st run
        (by simpa using Nat.le_of_succ_le_succ hlen)
        (fun x hx => hall x (List.mem_cons_of_mem _ hx))]
      simp [List.append_assoc]

theorem submitCount_fresh : ∀ (js : List Job) (q : Queue),
    (js.map Job.id).Nodup →
    (∀ j ∈ js, q.hasId j.id = false) →
    submitCount q js =
      ({ q with pending := q.pending ++ js, total := q.total + js.length },
       js.length) := by
  intro js
  induction js with
  | nil =>
    intro q _ _
    obtain ⟨pen, comp, res, disp, tot, st, run⟩ := q
    simp [submitCount]
  | cons j js ih =>
    intro q hnd hfresh
    have hj : q.hasId j.id = false := hfresh j (List.mem_cons_self _ _)
    have hx : ∀ x ∈ js,
        ({ q with pending := q.pending ++ [j], total := q.total + 1 } : Queue).hasId
          x.id = false := by
      intro x hxmem
      have h1 : q.hasId x.id = false := hfresh x (List.mem_cons_of_mem _ hxmem)
      rw [Queue.hasId, List.any_append] at h1
      have hne : (j.id == x.id) = false := by
        have hjn : j.id ∉ js.map Job.id := (List.nodup_cons.mp hnd).1
        have hxin : x.id ∈ js.map Job.id := List.mem_map_of_mem _ hxmem
        cases hq : (j.id == x.id)
        · rfl
        · rw [beq_iff_eq] at hq
          exact absurd (hq ▸ hxin) hjn
      show ((q.pending ++ [j]) ++ q.completedJobs).any (fun p => p.id == x.id) = false
      rw [List.any_append, List.any_append]
      simp only [List.any_cons, List.any_nil, hne, Bool.or_false]
      exact h1
    simp only [submitCount, submit_of_fresh hj]
    rw [ih _ (List.nodup_cons.mp hnd).2 hx]
    obtain ⟨pen, comp, res, disp, tot, st, run⟩ := q
    simp [List.append_assoc]
    omega

theorem wait_submitAll_eq (js : List Job)
    (hnd : (js.map Job.id).Nodup)
    (hall : ∀ j ∈ js, dispatchable j = true) :
    (Queue.empty.begin.submitAll js).wait =
      ⟨[], js.map runJob, js.map runJob, [], js.length, true, none⟩ := by
  have hfresh : ∀ j ∈ js, (Queue.empty.begin : Queue).hasId j.id = false :=
    fun j _ => rfl
  have hsub := submitCount_fresh js Queue.empty.begin hnd hfresh
  simp only [Queue.empty, Queue.begin, List.nil_append, Nat.zero_add] at hsub
  simp only [Queue.submitAll, Queue.wait, Queue.empty, Queue.begin, hsub]
  simpa using runFuel_drain js.length js [] [] js.length true none (Nat.le_refl _) hall

/-! ## C1: Wait processes every submitted job -/

/-- C1: starting a queue, submitting N jobs with unique ids (all
dispatchable, as in the reference test), and waiting yields a results
stream with exactly N jobs, each reporting completed, and `Get` succeeds
for every submitted id. -/
theorem queue_wait_processes_all_submitted_jobs (js : List Job)
    (hnd : (js.map Job.id).Nodup)
    (hall : ∀ j ∈ js, dispatchable j = true) :
    (Queue.empty.begin.submitAll js).wait.results.length = js.length ∧
    (∀ j ∈ (Queue.empty.begin.submitAll js).wait.results, j.completed = true) ∧
    (∀ j ∈ js, ((Queue.empty.begin.submitAll js).wait.get j.id).isSome = true) := by
  rw [wait_submitAll_eq js hnd hall]
  refine ⟨by simp, ?_, ?_⟩
  · intro j hj
    rcases List.mem_map.mp hj with ⟨x, _, rfl⟩
    exact runJob_completed x
  · intro j hj
    show ((([] : List Job) ++ js.map runJob).find? (fun p => p.id == j.id)).isSome = true
    rw [List.nil_append]
    rw [List.find?_isSome]
    exact ⟨runJob j, List.mem_map_of_mem _ hj, by simp [runJob_id]⟩

/-- Witness for C1 with the two-job batch `[jA, jB]`. -/
theorem queue_wait_processes_all_submitted_jobs_witness :
    ([jA, jB].map Job.id).Nodup ∧
    (Queue.empty.begin.submitAll [jA, jB]).wait.results.length = [jA, jB].length :=
  ⟨by decide,
   (queue_wait_processes_all_submitted_jobs [jA, jB] (by decide) (by decide)).1⟩

/-! ## C4: fault isolation -/

/-- C4: a job whose execution raises an internal fault ends with that
fault captured as its terminal error and completed==true, is still
forwarded through Complete (it is on the results stream), and every
sibling job submitted alongside it still completes successfully — the
fault never stops the worker loop. -/
theorem fault_isolated_to_job (js : List Job) (f : Job)
    (hnd : (js.map Job.id).Nodup)
    (hall : ∀ j ∈ js, dispatchable j = true)
    (hf : f ∈ js) (hfr : f.depState = DepState.ready) (hff : f.faults = true) :
    runJob f ∈ (Queue.empty.begin.submitAll js).wait.results ∧
    (runJob f).err.isSome = true ∧
    (runJob f).completed = true ∧
    (∀ j ∈ js, j.depState = DepState.ready → j.faults = false →
      runJob j ∈ (Queue.empty.begin.submitAll js).wait.results ∧
      (runJob j).err = none ∧ (runJob j).completed = true) := by
  rw [wait_submitAll_eq js hnd hall]
  refine ⟨List.mem_map_of_mem _ hf, ?_, runJob_completed f, ?_⟩
  · rw [runJob_ready_err f hfr, hff]
    rfl
  · intro j hj hjr hjf
    exact ⟨List.mem_map_of_mem _ hj,
      by rw [runJob_ready_err j hjr, hjf]; rfl,
      runJob_completed j⟩

/-- Witness for C4: the faulting job `jF` submitted alongside `jA` ends
completed with a recorded terminal error, and `jA` still succeeds. -/
theorem fault_isolated_to_job_witness :
    jF.faults = true ∧
    (runJob jF).err.isSome = true ∧
    (runJob jA).err = none :=
  ⟨by decide,
   (fault_isolated_to_job [jF, jA] jF (by decide) (by decide) (by decide)
     (by decide) (by decide)).2.1,
   ((fault_isolated_to_job [jF, jA] jF (by decide) (by decide) (by decide)
     (by decide) (by decide)).2.2.2 jA (by decide) (by decide) (by decide)).2.1⟩

/-! ## C5: Passed jobs are skipped but still complete -/

/-- C5: a job whose dependency state is Passed at submission time is
never executed (its execution side effect never fires), yet after Wait
it reports completed==true, appears on the results stream, and Get
succeeds for its id. -/
theorem passed_jobs_skipped_but_completed (js : List Job) (p : Job)
    (hnd : (js.map Job.id).Nodup)
    (hall : ∀ j ∈ js, dispatchable j = true)
    (hp : p ∈ js) (hps : p.depState = DepState.passed)
    (hpe : p.executed = false) :
    runJob p ∈ (Queue.empty.begin.submitAll js).wait.results ∧
    (runJob p).executed = false ∧
    (runJob p).completed = true ∧
    ((Queue.empty.begin.submitAll js).wait.get p.id).isSome = true := by
  rw [wait_submitAll_eq js hnd hall]
  refine ⟨List.mem_map_of_mem _ hp, ?_, runJob_completed p, ?_⟩
  · rw [runJob_passed p hps]
    exact hpe
  · show ((([] : List Job) ++ js.map runJob).find? (fun x => x.id == p.id)).isSome = true
    rw [List.nil_append, List.find?_isSome]
    exact ⟨runJob p, List.mem_map_of_mem _ hp, by simp [runJob_id]⟩

/-- Witness for C5: the Passed job `jB`, submitted with `jA`, ends
completed without its execution side effect having fired. -/
theorem passed_jobs_skipped_but_completed_witness :
    jB.depState = DepState.passed ∧
    (runJob jB).executed = false ∧
    (runJob jB).completed = true :=
  ⟨by decide,
   (passed_jobs_skipped_but_completed [jB, jA] jB (by decide) (by decide)
     (by decide) (by decide) (by decide)).2.1,
   (passed_jobs_skipped_but_completed [jB, jA] jB (by decide) (by decide)
     (by decide) (by decide) (by decide)).2.2.1⟩

end Greenbay
